import Mathlib

/-!
Verification of the swi-localization XML comparison scripts.

The repository holds three Python scripts under `compare-script/`:

* `compare_same_xml_files.py` — extracts `{id: stripped text}` from the `<t>`
  elements of two XML files, computes common / added / removed id sets and the
  list of changed strings, and prints a report (optionally exporting CSV).
* `compare_xml_ids.py` — extracts only the id sets and prints the ids present
  in the first file but missing from the second.
* `compare_same_xml_files_colored.py` — like the first script but without
  stripping, rendering each changed string either side by side (when both
  texts are shorter than 50 characters) or as a character-level diff produced
  from `difflib.ndiff`.

The embedding below models an XML file as the list of its `<t>` elements in
document order (the XML parser itself is external library code); each element
carries its optional `id` attribute and optional text content.  Parsing
failures and missing files are modelled by the `XmlInput` type.
-/

/-- One `<t>` element as seen by `tree.iter('t')`: the optional `id`
attribute (`t.get('id')`) and the optional text content (`t.text`). -/
structure XmlElem where
  id : Option String
  text : Option String
deriving DecidableEq

/-- Python truthiness test `if t_id:` applied to `t.get('id')`: the element is
taken into account exactly when the attribute is present and non-empty. -/
def goodId (t : XmlElem) : Option String :=
  match t.id with
  | some i => if i = "" then none else some i
  | none => none

/-- ASCII whitespace recognised by Python's `str.strip()` (the Unicode cases
do not occur in the inputs considered here). -/
def isPySpace (c : Char) : Bool :=
  c = ' ' || c = '\t' || c = '\n' || c = '\x0b' || c = '\x0c' || c = '\r'

/-- Python `text.strip()`: remove leading and trailing whitespace. -/
def pyStrip (s : String) : String :=
  String.mk (((s.data.dropWhile isPySpace).reverse.dropWhile isPySpace).reverse)

/-- Python dict assignment `m[k] = v`: overwrite the value in place when the
key is present, otherwise append the new binding at the end. -/
def dictInsert (m : List (String × String)) (k v : String) :
    List (String × String) :=
  match m with
  | [] => [(k, v)]
  | (k1, v1) :: rest =>
      if k1 = k then (k, v) :: rest else (k1, v1) :: dictInsert rest k v

/-- The data extracted from one file by `extract_strings`: the
`{id: text}` dictionary and the set of all ids. -/
structure FileIndex where
  id_to_text : List (String × String)
  all_ids : Finset String
deriving DecidableEq

/-- Loop body of `extract_strings`: for an element with a truthy id, add the
id to the set and map it to the stripped text (`None` text becomes `""`). -/
def extractStep (acc : FileIndex) (t : XmlElem) : FileIndex :=
  match goodId t with
  | some i =>
      { id_to_text := dictInsert acc.id_to_text i (pyStrip (t.text.getD "")),
        all_ids := insert i acc.all_ids }
  | none => acc

/-- `extract_strings` of `compare_same_xml_files.py` (the successful branch):
fold over the `<t>` elements in document order. -/
def extract_strings (elems : List XmlElem) : FileIndex :=
  elems.foldl extractStep { id_to_text := [], all_ids := ∅ }

/-- `extract_ids` of `compare_xml_ids.py` (the successful branch): collect the
truthy ids only, ignoring text. -/
def extract_ids (elems : List XmlElem) : Finset String :=
  elems.foldl
    (fun s t =>
      match goodId t with
      | some i => insert i s
      | none => s) ∅

/-- Loop body of the dictionary construction in the colored script's `main`:
`strings[t_id] = t.text or ""` — note the absence of `.strip()`. -/
def coloredStep (m : List (String × String)) (t : XmlElem) :
    List (String × String) :=
  match goodId t with
  | some i => dictInsert m i (t.text.getD "")
  | none => m

/-- The `{id: text}` dictionary built by `compare_same_xml_files_colored.py`:
text is stored untrimmed. -/
def colored_strings (elems : List XmlElem) : List (String × String) :=
  elems.foldl coloredStep []

/-- Value of a decimal digit character, `none` for a non-digit. -/
def digitVal (c : Char) : Option Nat :=
  if 48 ≤ c.toNat ∧ c.toNat ≤ 57 then some (c.toNat - 48) else none

/-- Left-to-right accumulation of a decimal numeral. -/
def parseDecAux (acc : Nat) : List Char → Option Nat
  | [] => some acc
  | c :: rest =>
      match digitVal c with
      | some d => parseDecAux (acc * 10 + d) rest
      | none => none

/-- Python `int(s)` on the plain decimal id strings the scripts are written
for: `some` of the integer value when every character is a digit (and there
is at least one), `none` otherwise (where Python would raise `ValueError`). -/
def parseDec (s : String) : Option Nat :=
  match s.data with
  | [] => none
  | c :: rest =>
      match digitVal c with
      | some d => parseDecAux d rest
      | none => none

/-- Sort key `int(id)` used by every `sorted(..., key=int)` call, made total
by defaulting to `0` off the numeric domain. -/
def idKey (s : String) : Nat := (parseDec s).getD 0

/-- Lexicographic comparison of character lists by code point, used only to
break ties between distinct id strings with one integer value. -/
def lexLeb : List Char → List Char → Bool
  | [], _ => true
  | _ :: _, [] => false
  | a :: as, b :: bs =>
      if a.toNat = b.toNat then lexLeb as bs else decide (a.toNat < b.toNat)

theorem lexLeb_refl (as : List Char) : lexLeb as as = true := by
  induction as with
  | nil => rfl
  | cons a rest ih => simp [lexLeb, ih]

theorem lexLeb_total (as bs : List Char) :
    lexLeb as bs = true ∨ lexLeb bs as = true := by
  induction as generalizing bs with
  | nil => exact Or.inl rfl
  | cons a rest ih =>
      cases bs with
      | nil => exact Or.inr rfl
      | cons b bs =>
          by_cases h : a.toNat = b.toNat
          · rcases ih bs with h1 | h1
            · exact Or.inl (by simp [lexLeb, h, h1])
            · exact Or.inr (by simp [lexLeb, h.symm, h1])
          · have hba : ¬ b.toNat = a.toNat := fun e => h e.symm
            rcases Nat.lt_or_ge a.toNat b.toNat with hlt | hge
            · exact Or.inl (by simp [lexLeb, h, hlt])
            · have hlt : b.toNat < a.toNat := lt_of_le_of_ne hge (Ne.symm h)
              exact Or.inr (by simp [lexLeb, hba, hlt])

theorem charToNat_inj {a b : Char} (h : a.toNat = b.toNat) : a = b :=
  Char.ext (UInt32.ext h)

theorem lexLeb_antisymm {as bs : List Char} (h1 : lexLeb as bs = true)
    (h2 : lexLeb bs as = true) : as = bs := by
  induction as generalizing bs with
  | nil =>
      cases bs with
      | nil => rfl
      | cons b bs => simp [lexLeb] at h2
  | cons a rest ih =>
      cases bs with
      | nil => simp [lexLeb] at h1
      | cons b bs =>
          by_cases h : a.toNat = b.toNat
          · have : rest = bs := by
              apply ih
              · simpa [lexLeb, h] using h1
              · simpa [lexLeb, h.symm] using h2
            rw [charToNat_inj h, this]
          · exfalso
            have hba : ¬ b.toNat = a.toNat := fun e => h e.symm
            have e1 : a.toNat < b.toNat := by simpa [lexLeb, h] using h1
            have e2 : b.toNat < a.toNat := by simpa [lexLeb, hba] using h2
            exact lt_asymm e1 e2

theorem lexLeb_trans {as bs cs : List Char} (h1 : lexLeb as bs = true)
    (h2 : lexLeb bs cs = true) : lexLeb as cs = true := by
  induction as generalizing bs cs with
  | nil => rfl
  | cons a rest ih =>
      cases bs with
      | nil => simp [lexLeb] at h1
      | cons b bs =>
          cases cs with
          | nil => simp [lexLeb] at h2
          | cons c cs =>
              by_cases hab : a.toNat = b.toNat
              · by_cases hbc : b.toNat = c.toNat
                · have hac : a.toNat = c.toNat := hab.trans hbc
                  have t1 : lexLeb rest bs = true := by
                    simpa [lexLeb, hab] using h1
                  have t2 : lexLeb bs cs = true := by
                    simpa [lexLeb, hbc] using h2
                  simp [lexLeb, hac, ih t1 t2]
                · have hlt : b.toNat < c.toNat := by
                    simpa [lexLeb, hbc] using h2
                  have hac : a.toNat < c.toNat := hab ▸ hlt
                  simp [lexLeb, Nat.ne_of_lt hac, hac]
              · have hlt : a.toNat < b.toNat := by
                  simpa [lexLeb, hab] using h1
                by_cases hbc : b.toNat = c.toNat
                · have hac : a.toNat < c.toNat := hbc ▸ hlt
                  simp [lexLeb, Nat.ne_of_lt hac, hac]
                · have hlt2 : b.toNat < c.toNat := by
                    simpa [lexLeb, hbc] using h2
                  have hac : a.toNat < c.toNat := lt_trans hlt hlt2
                  simp [lexLeb, Nat.ne_of_lt hac, hac]

/-- Total order refining the `key=int` sort: compare integer values first and
break ties (distinct spellings of one number) lexicographically.  Python's
`sorted` is stable over an unspecified set iteration order, so any fixed
tie-break is a sound determinisation. -/
def idLE (a b : String) : Prop :=
  idKey a < idKey b ∨ (idKey a = idKey b ∧ lexLeb a.data b.data = true)

instance decIdLE : DecidableRel idLE := fun a b => by
  unfold idLE
  infer_instance

instance instIsTransIdLE : IsTrans String idLE := by
  constructor
  intro a b c hab hbc
  rcases hab with h1 | ⟨h1, h1s⟩ <;> rcases hbc with h2 | ⟨h2, h2s⟩
  · exact Or.inl (lt_trans h1 h2)
  · exact Or.inl (h2 ▸ h1)
  · exact Or.inl (h1 ▸ h2)
  · exact Or.inr ⟨h1.trans h2, lexLeb_trans h1s h2s⟩

theorem stringDataEq {a b : String} (h : a.data = b.data) : a = b := by
  cases a with
  | mk d1 =>
      cases b with
      | mk d2 => exact congrArg String.mk h

instance instIsAntisymmIdLE : IsAntisymm String idLE := by
  constructor
  intro a b hab hba
  rcases hab with h1 | ⟨h1, h1s⟩ <;> rcases hba with h2 | ⟨h2, h2s⟩
  · exact absurd h2 (lt_asymm h1)
  · exact absurd h1 (h2 ▸ lt_irrefl _)
  · exact absurd h2 (h1 ▸ lt_irrefl _)
  · exact stringDataEq (lexLeb_antisymm h1s h2s)

instance instIsTotalIdLE : IsTotal String idLE := by
  constructor
  intro a b
  rcases lt_trichotomy (idKey a) (idKey b) with h | h | h
  · exact Or.inl (Or.inl h)
  · rcases lexLeb_total a.data b.data with hs | hs
    · exact Or.inl (Or.inr ⟨h, hs⟩)
    · exact Or.inr (Or.inr ⟨h.symm, hs⟩)
  · exact Or.inr (Or.inl h)

/-- `sorted(s, key=int)` on a set of id strings. -/
def sortIds (s : Finset String) : List String := Finset.sort idLE s

/-- A sorted sequence with the elements of the set is THE sorted listing:
used to evaluate `sortIds` on concrete sets. -/
theorem sortIds_eq_of (s : Finset String) (l0 l : List String)
    (hv : s.val = (↑l0 : Multiset String)) (hp : l0.Perm l)
    (hs : List.Sorted idLE l) : sortIds s = l := by
  have hcoe : (↑(sortIds s) : Multiset String) = (↑l0 : Multiset String) := by
    rw [sortIds]
    show (↑(Multiset.sort idLE s.val) : Multiset String) = _
    rw [Multiset.sort_eq, hv]
  exact List.eq_of_perm_of_sorted ((Multiset.coe_eq_coe.mp hcoe).trans hp)
    (Finset.sort_sorted idLE s) hs

/-! ## The comparator of `compare_same_xml_files.py` -/

/-- `common_ids = old_ids.intersection(new_ids)`. -/
def common_ids (old new : FileIndex) : Finset String :=
  old.all_ids ∩ new.all_ids

/-- `added_ids = new_ids - old_ids`. -/
def added_ids (old new : FileIndex) : Finset String :=
  new.all_ids \ old.all_ids

/-- `removed_ids = old_ids - new_ids`. -/
def removed_ids (old new : FileIndex) : Finset String :=
  old.all_ids \ new.all_ids

/-- One entry of the `changes` list: `{'id': .., 'old': .., 'new': ..}`. -/
structure ChangeRecord where
  id : String
  old : String
  new : String
deriving DecidableEq

/-- Body of the loop `for t_id in sorted(common_ids, key=int)`: look the id up
in both dictionaries (defaulting to `""`) and record a change on any
inequality. -/
def changeAt (old new : FileIndex) (tid : String) : Option ChangeRecord :=
  let o := (List.lookup tid old.id_to_text).getD ""
  let n := (List.lookup tid new.id_to_text).getD ""
  if o ≠ n then some { id := tid, old := o, new := n } else none

/-- The `changes` list accumulated by `main`, in ascending id-key order. -/
def changesOf (old new : FileIndex) : List ChangeRecord :=
  (sortIds (common_ids old new)).filterMap (changeAt old new)

/-- The added-strings listing: `for t_id in sorted(added_ids, key=int)` with
`text = new_strings[t_id]`. -/
def addedListing (old new : FileIndex) : List (String × String) :=
  (sortIds (added_ids old new)).map
    (fun i => (i, (List.lookup i new.id_to_text).getD ""))

/-- The removed-strings listing: `for t_id in sorted(removed_ids, key=int)`
with `text = old_strings[t_id]`. -/
def removedListing (old new : FileIndex) : List (String × String) :=
  (sortIds (removed_ids old new)).map
    (fun i => (i, (List.lookup i old.id_to_text).getD ""))

/-- Everything `main` prints after both extractions succeed. -/
structure Report where
  total_old : Nat
  total_new : Nat
  common_count : Nat
  changes : List ChangeRecord
  added : List (String × String)
  removed : List (String × String)
deriving DecidableEq

/-- The comparison report of `compare_same_xml_files.py`. -/
def buildReport (old new : FileIndex) : Report :=
  { total_old := old.all_ids.card,
    total_new := new.all_ids.card,
    common_count := (common_ids old new).card,
    changes := changesOf old new,
    added := addedListing old new,
    removed := removedListing old new }

/-! ## Inputs and the extraction boundary

An invocation hands each script a file path; what the XML library finds there
is either a well-formed document (its `<t>` elements in document order), a
parse failure, or a missing file. -/

/-- Outcome of `ET.parse` on one input path. -/
inductive XmlInput where
  | ok (elems : List XmlElem)
  | parseError (detail : String)
  | notFound
deriving DecidableEq

/-- A fatal abort: the printed diagnostic and the `sys.exit` status. -/
structure Fatal where
  message : String
  exit_code : Nat
deriving DecidableEq

/-- `extract_strings` including its `try/except` wrapper: a parse failure or
missing file prints a message naming the path and exits with status 1. -/
def extract_strings_checked (path : String) : XmlInput → Except Fatal FileIndex
  | .ok elems => .ok (extract_strings elems)
  | .parseError e =>
      .error { message := "XML parsing error in " ++ path ++ ": " ++ e,
               exit_code := 1 }
  | .notFound =>
      .error { message := "File not found: " ++ path, exit_code := 1 }

/-- `extract_ids` of `compare_xml_ids.py` including its identical
`try/except` wrapper. -/
def extract_ids_checked (path : String) :
    XmlInput → Except Fatal (Finset String)
  | .ok elems => .ok (extract_ids elems)
  | .parseError e =>
      .error { message := "XML parsing error in " ++ path ++ ": " ++ e,
               exit_code := 1 }
  | .notFound =>
      .error { message := "File not found: " ++ path, exit_code := 1 }

/-- `main` of `compare_same_xml_files.py` up to the report: extract the old
file, then the new file, then compare; an extraction failure aborts before
any comparison output. -/
def mainCompare (oldPath newPath : String) (oldIn newIn : XmlInput) :
    Except Fatal Report := do
  let old ← extract_strings_checked oldPath oldIn
  let new ← extract_strings_checked newPath newIn
  pure (buildReport old new)

/-! ## `compare_xml_ids.py` -/

/-- What the id-only script prints: the sorted missing ids, or the success
message `All IDs from first file exist in second file`. -/
inductive IdsReport where
  | missingReport (ids : List String)
  | allPresent
deriving DecidableEq

/-- `missing_ids = sorted(ids1 - ids2, key=int)`. -/
def missingList (ids1 ids2 : Finset String) : List String :=
  sortIds (ids1 \ ids2)

/-- The `if missing_ids: ... else: ...` output choice. -/
def idsReportOf (ids1 ids2 : Finset String) : IdsReport :=
  if missingList ids1 ids2 = [] then .allPresent
  else .missingReport (missingList ids1 ids2)

/-- `main` of `compare_xml_ids.py`. -/
def mainIds (path1 path2 : String) (in1 in2 : XmlInput) :
    Except Fatal IdsReport := do
  let ids1 ← extract_ids_checked path1 in1
  let ids2 ← extract_ids_checked path2 in2
  pure (idsReportOf ids1 ids2)

/-! ## `compare_same_xml_files_colored.py`

The script feeds each changed pair of texts to `difflib.ndiff` character by
character.  `ndiff` is library code outside this repository; following the
specification's characterisation ("a longest-common-subsequence character
diff"), it is modelled here as the edit script over single characters that
keeps a common subsequence and marks the rest deleted or inserted, choosing
the cheaper of deleting or inserting at each disagreement. -/

/-- One line of the `ndiff` output restricted to the tags the script reads:
`'  c'` (unchanged), `'- c'` (only in the first text), `'+ c'` (only in the
second text). -/
inductive DiffEntry where
  | keep (c : Char)
  | drop (c : Char)
  | ins (c : Char)
deriving DecidableEq

/-- Number of non-matching lines of an edit script. -/
def diffCost : List DiffEntry → Nat
  | [] => 0
  | .keep _ :: rest => diffCost rest
  | .drop _ :: rest => diffCost rest + 1
  | .ins _ :: rest => diffCost rest + 1

/-- Modelled from the spec: the character-level edit script computed by
`difflib.ndiff` (library code, not in this repository), per the spec's
description "a Myers-style or longest-common-subsequence character diff". -/
def charDiff : List Char → List Char → List DiffEntry
  | [], ys => ys.map .ins
  | xs, [] => xs.map .drop
  | x :: xs, y :: ys =>
      if x = y then .keep x :: charDiff xs ys
      else
        let viaDel := charDiff xs (y :: ys)
        let viaIns := charDiff (x :: xs) ys
        if diffCost viaDel ≤ diffCost viaIns then .drop x :: viaDel
        else .ins y :: viaIns
termination_by xs ys => xs.length + ys.length

/-- The characters of the first text: the unchanged and deleted entries. -/
def restoreOld : List DiffEntry → List Char
  | [] => []
  | .keep c :: rest => c :: restoreOld rest
  | .drop c :: rest => c :: restoreOld rest
  | .ins _ :: rest => restoreOld rest

/-- The characters of the second text: the unchanged and inserted entries. -/
def restoreNew : List DiffEntry → List Char
  | [] => []
  | .keep c :: rest => c :: restoreNew rest
  | .drop _ :: rest => restoreNew rest
  | .ins c :: rest => c :: restoreNew rest

/-- ANSI sequence printed before a removed character (`\\033[91m`, red). -/
def ansiRed : String := "\x1b[91m"

/-- ANSI sequence printed before an added character (`\\033[92m`, green). -/
def ansiGreen : String := "\x1b[92m"

/-- ANSI reset sequence (`\\033[0m`). -/
def ansiReset : String := "\x1b[0m"

/-- Loop body of `colored_diff`: an unchanged character is emitted plainly, a
removed one wrapped in red, an added one wrapped in green. -/
def renderEntry : DiffEntry → String
  | .keep c => String.singleton c
  | .drop c => ansiRed ++ String.singleton c ++ ansiReset
  | .ins c => ansiGreen ++ String.singleton c ++ ansiReset

/-- `colored_diff(text1, text2)` of the colored script: join the rendered
entries of the character diff. -/
def colored_diff (text1 text2 : String) : String :=
  String.join ((charDiff text1.data text2.data).map renderEntry)

/-- What the colored script prints for one changed id. -/
inductive ChangeRendering where
  | sideBySide (oldText newText : String)
  | diffScript (rendered : String)
deriving DecidableEq

/-- The per-change branch of the colored `main`: side by side when both texts
have fewer than 50 characters, otherwise the colored character diff. -/
def renderChange (text1 text2 : String) : ChangeRendering :=
  if text1.length < 50 ∧ text2.length < 50 then .sideBySide text1 text2
  else .diffScript (colored_diff text1 text2)

/-- Keys of a Python dictionary as a set: `set(strings.keys())`. -/
def keysFinset (m : List (String × String)) : Finset String :=
  (m.map Prod.fst).toFinset

/-- The changed ids found by the colored `main` together with the two
(untrimmed) texts, in ascending id-key order. -/
def coloredChanges (f1 f2 : List XmlElem) :
    List (String × String × String) :=
  let s1 := colored_strings f1
  let s2 := colored_strings f2
  (sortIds (keysFinset s1 ∩ keysFinset s2)).filterMap
    (fun tid =>
      let t1 := (List.lookup tid s1).getD ""
      let t2 := (List.lookup tid s2).getD ""
      if t1 ≠ t2 then some (tid, t1, t2) else none)

/-- The full per-change output of the colored script. -/
def coloredReport (f1 f2 : List XmlElem) :
    List (String × ChangeRendering) :=
  (coloredChanges f1 f2).map (fun p => (p.1, renderChange p.2.1 p.2.2))

/-- An exception escaping `main` uncaught: Python prints a traceback ending
in the exception text and exits with status 1. -/
structure Uncaught where
  excText : String
deriving DecidableEq

/-- `ET.parse` as called by the colored `main`, with no `try/except` around
it: a `ParseError` escapes carrying only the parser detail (position
information, no file name), a `FileNotFoundError` escapes carrying the
`strerror` plus the offending path. -/
def parse_unchecked (path : String) :
    XmlInput → Except Uncaught (List XmlElem)
  | .ok elems => .ok elems
  | .parseError e => .error { excText := e }
  | .notFound =>
      .error { excText :=
        "[Errno 2] No such file or directory: " ++ "'" ++ path ++ "'" }

/-- `main` of `compare_same_xml_files_colored.py`. -/
def mainColored (path1 path2 : String) (in1 in2 : XmlInput) :
    Except Uncaught (List (String × ChangeRendering)) := do
  let e1 ← parse_unchecked path1 in1
  let e2 ← parse_unchecked path2 in2
  pure (coloredReport e1 e2)

/-! ## Substring test used to state "the message names the failing file" -/

/-- Sequence `pat` occurs at the head of `l`. -/
def startsWithSeq : List Char → List Char → Bool
  | _, [] => true
  | [], _ :: _ => false
  | a :: as, b :: bs => a = b && startsWithSeq as bs

/-- Sequence `pat` occurs somewhere in `l`. -/
def containsSeq : List Char → List Char → Bool
  | l, pat =>
      match l with
      | [] => pat.isEmpty
      | _ :: rest => startsWithSeq l pat || containsSeq rest pat

/-- The diagnostic `msg` names the file `path`. -/
def namesFile (msg path : String) : Bool := containsSeq msg.data path.data

/-! ## Dictionary lemmas -/

theorem lookup_cons_eq (rest : List (String × String)) (k v : String) :
    List.lookup k ((k, v) :: rest) = some v := by
  simp [List.lookup]

theorem lookup_cons_ne (rest : List (String × String)) (k k1 v1 : String)
    (h : k ≠ k1) : List.lookup k ((k1, v1) :: rest) = List.lookup k rest := by
  have hb : (k == k1) = false := beq_eq_false_iff_ne.mpr h
  simp [List.lookup, hb]

theorem lookup_dictInsert (m : List (String × String)) (k k1 v : String) :
    List.lookup k (dictInsert m k1 v) =
      if k = k1 then some v else List.lookup k m := by
  induction m with
  | nil =>
      by_cases h : k = k1
      · subst h
        rw [if_pos rfl]
        exact lookup_cons_eq _ _ _
      · rw [if_neg h, show dictInsert [] k1 v = [(k1, v)] from rfl,
          lookup_cons_ne _ _ _ _ h]
  | cons p rest ih =>
      obtain ⟨k2, v2⟩ := p
      by_cases h2 : k2 = k1
      · subst h2
        rw [show dictInsert ((k2, v2) :: rest) k2 v = (k2, v) :: rest by
          simp [dictInsert]]
        by_cases h : k = k2
        · subst h
          rw [if_pos rfl, lookup_cons_eq]
        · rw [if_neg h, lookup_cons_ne _ _ _ _ h, lookup_cons_ne _ _ _ _ h]
      · rw [show dictInsert ((k2, v2) :: rest) k1 v =
            (k2, v2) :: dictInsert rest k1 v by simp [dictInsert, h2]]
        by_cases h : k = k2
        · subst h
          have hk1 : ¬ k = k1 := fun e => h2 (e ▸ rfl)
          rw [if_neg hk1, lookup_cons_eq, lookup_cons_eq]
        · rw [lookup_cons_ne _ _ _ _ h, ih, lookup_cons_ne _ _ _ _ h]

theorem lookup_isSome_iff_mem_keys (m : List (String × String)) (k : String) :
    (List.lookup k m).isSome = true ↔ k ∈ m.map Prod.fst := by
  induction m with
  | nil => simp [List.lookup]
  | cons p rest ih =>
      obtain ⟨k1, v1⟩ := p
      by_cases h : k = k1
      · subst h
        rw [lookup_cons_eq]
        simp
      · rw [lookup_cons_ne _ _ _ _ h, ih]
        simp [h]

/-! ## Extraction lemmas -/

/-- The element whose text `extract_strings` ends up storing for id `k`: the
LAST element of the file, in document order, whose truthy id is `k` (later
elements take priority). -/
def lastGood : List XmlElem → String → Option XmlElem
  | [], _ => none
  | t :: rest, k =>
      match lastGood rest k with
      | some u => some u
      | none => if goodId t = some k then some t else none

theorem lastGood_cons_none (t : XmlElem) (rest : List XmlElem) (k : String)
    (hr : lastGood rest k = none) :
    lastGood (t :: rest) k = if goodId t = some k then some t else none := by
  simp [lastGood, hr]

theorem lastGood_cons_some (t : XmlElem) (rest : List XmlElem) (k : String)
    (u : XmlElem) (hr : lastGood rest k = some u) :
    lastGood (t :: rest) k = some u := by
  simp [lastGood, hr]

theorem lastGood_isSome_iff (l : List XmlElem) (k : String) :
    (lastGood l k).isSome = true ↔ ∃ t, t ∈ l ∧ goodId t = some k := by
  induction l with
  | nil => simp [lastGood]
  | cons t rest ih =>
      rcases hr : lastGood rest k with _ | u
      · rw [lastGood_cons_none t rest k hr]
        by_cases h : goodId t = some k
        · rw [if_pos h]
          constructor
          · intro _
            exact ⟨t, List.mem_cons_self t rest, h⟩
          · intro _
            rfl
        · rw [if_neg h]
          constructor
          · intro hfalse
            simp at hfalse
          · rintro ⟨x, hx, hgx⟩
            rcases List.mem_cons.mp hx with rfl | hx2
            · exact absurd hgx h
            · have := ih.mpr ⟨x, hx2, hgx⟩
              rw [hr] at this
              simp at this
      · rw [lastGood_cons_some t rest k u hr]
        have hex : ∃ x, x ∈ rest ∧ goodId x = some k := by
          apply ih.mp
          rw [hr]
          rfl
        constructor
        · intro _
          rcases hex with ⟨x, hx, hgx⟩
          exact ⟨x, List.mem_cons_of_mem t hx, hgx⟩
        · intro _
          rfl

theorem lookup_foldl_extract (l : List XmlElem) (acc : FileIndex)
    (k : String) :
    List.lookup k (l.foldl extractStep acc).id_to_text =
      match lastGood l k with
      | some t => some (pyStrip (t.text.getD ""))
      | none => List.lookup k acc.id_to_text := by
  induction l generalizing acc with
  | nil => simp [lastGood]
  | cons t rest ih =>
      rw [List.foldl_cons, ih]
      rcases hr : lastGood rest k with _ | u
      · rw [lastGood_cons_none t rest k hr]
        rcases hg : goodId t with _ | i
        · have hstep : extractStep acc t = acc := by
            simp [extractStep, hg]
          rw [hstep]
          simp
        · have hstep : (extractStep acc t).id_to_text =
              dictInsert acc.id_to_text i (pyStrip (t.text.getD "")) := by
            simp [extractStep, hg]
          rw [hstep, lookup_dictInsert]
          by_cases hki : k = i
          · subst hki
            simp
          · have hik : ¬ (some i = some k) := by
              intro e
              cases e
              exact hki rfl
            simp [hki, hik]
      · rw [lastGood_cons_some t rest k u hr]

theorem mem_allIds_foldl_extract (l : List XmlElem) (acc : FileIndex)
    (k : String) :
    k ∈ (l.foldl extractStep acc).all_ids ↔
      k ∈ acc.all_ids ∨ ∃ t, t ∈ l ∧ goodId t = some k := by
  induction l generalizing acc with
  | nil => simp
  | cons t rest ih =>
      rw [List.foldl_cons, ih]
      rcases hg : goodId t with _ | i
      · have hstep : (extractStep acc t).all_ids = acc.all_ids := by
          simp [extractStep, hg]
        rw [hstep]
        constructor
        · rintro (h | ⟨x, hx, hgx⟩)
          · exact Or.inl h
          · exact Or.inr ⟨x, List.mem_cons_of_mem t hx, hgx⟩
        · rintro (h | ⟨x, hx, hgx⟩)
          · exact Or.inl h
          · rcases List.mem_cons.mp hx with rfl | hx2
            · rw [hgx] at hg
              cases hg
            · exact Or.inr ⟨x, hx2, hgx⟩
      · have hstep : (extractStep acc t).all_ids = insert i acc.all_ids := by
          simp [extractStep, hg]
        rw [hstep]
        constructor
        · rintro (h | ⟨x, hx, hgx⟩)
          · rcases Finset.mem_insert.mp h with rfl | h2
            · exact Or.inr ⟨t, List.mem_cons_self t rest, hg⟩
            · exact Or.inl h2
          · exact Or.inr ⟨x, List.mem_cons_of_mem t hx, hgx⟩
        · rintro (h | ⟨x, hx, hgx⟩)
          · exact Or.inl (Finset.mem_insert_of_mem h)
          · rcases List.mem_cons.mp hx with rfl | hx2
            · rw [hgx] at hg
              cases hg
              exact Or.inl (Finset.mem_insert_self _ _)
            · exact Or.inr ⟨x, hx2, hgx⟩

theorem lookup_extract_strings (l : List XmlElem) (k : String) :
    List.lookup k (extract_strings l).id_to_text =
      match lastGood l k with
      | some t => some (pyStrip (t.text.getD ""))
      | none => none := by
  rw [extract_strings, lookup_foldl_extract]
  rcases lastGood l k with _ | t <;> simp [List.lookup]

theorem mem_extract_strings_allIds (l : List XmlElem) (k : String) :
    k ∈ (extract_strings l).all_ids ↔ ∃ t, t ∈ l ∧ goodId t = some k := by
  rw [extract_strings, mem_allIds_foldl_extract]
  simp

theorem extract_keys_eq_allIds (l : List XmlElem) :
    keysFinset (extract_strings l).id_to_text = (extract_strings l).all_ids := by
  ext k
  rw [keysFinset, List.mem_toFinset, ← lookup_isSome_iff_mem_keys,
    lookup_extract_strings, mem_extract_strings_allIds,
    ← lastGood_isSome_iff]
  rcases lastGood l k with _ | t <;> simp

/-! ## `extract_ids` lemmas -/

theorem mem_foldl_extract_ids (l : List XmlElem) (acc : Finset String)
    (k : String) :
    k ∈ l.foldl
        (fun s t =>
          match goodId t with
          | some i => insert i s
          | none => s) acc ↔
      k ∈ acc ∨ ∃ t, t ∈ l ∧ goodId t = some k := by
  induction l generalizing acc with
  | nil => simp
  | cons t rest ih =>
      rw [List.foldl_cons, ih]
      rcases hg : goodId t with _ | i
      · constructor
        · rintro (h | ⟨x, hx, hgx⟩)
          · exact Or.inl h
          · exact Or.inr ⟨x, List.mem_cons_of_mem t hx, hgx⟩
        · rintro (h | ⟨x, hx, hgx⟩)
          · exact Or.inl h
          · rcases List.mem_cons.mp hx with rfl | hx2
            · rw [hgx] at hg
              cases hg
            · exact Or.inr ⟨x, hx2, hgx⟩
      · constructor
        · rintro (h | ⟨x, hx, hgx⟩)
          · rcases Finset.mem_insert.mp h with rfl | h2
            · exact Or.inr ⟨t, List.mem_cons_self t rest, hg⟩
            · exact Or.inl h2
          · exact Or.inr ⟨x, List.mem_cons_of_mem t hx, hgx⟩
        · rintro (h | ⟨x, hx, hgx⟩)
          · exact Or.inl (Finset.mem_insert_of_mem h)
          · rcases List.mem_cons.mp hx with rfl | hx2
            · rw [hgx] at hg
              cases hg
              exact Or.inl (Finset.mem_insert_self _ _)
            · exact Or.inr ⟨x, hx2, hgx⟩

theorem mem_extract_ids (l : List XmlElem) (k : String) :
    k ∈ extract_ids l ↔ ∃ t, t ∈ l ∧ goodId t = some k := by
  rw [extract_ids, mem_foldl_extract_ids]
  simp

/-- Replace every element's text, keeping the ids: used to state that the
id-only comparator never looks at text. -/
def retext (g : Option String → Option String) (f : List XmlElem) :
    List XmlElem :=
  f.map (fun t => { id := t.id, text := g t.text })

theorem extract_ids_retext (g : Option String → Option String)
    (f : List XmlElem) : extract_ids (retext g f) = extract_ids f := by
  rw [extract_ids, extract_ids, retext, List.foldl_map]
  rfl

/-! ## Order lemmas for the listings -/

/-- Comparison of the `int` sort keys. -/
def keyLE (a b : String) : Prop := idKey a ≤ idKey b

theorem idLE_imp_keyLE {a b : String} (h : idLE a b) : keyLE a b :=
  h.elim le_of_lt (fun h2 => le_of_eq h2.1)

theorem sortIds_pairwise_keyLE (s : Finset String) :
    List.Pairwise keyLE (sortIds s) :=
  (Finset.sort_sorted idLE s).imp idLE_imp_keyLE

theorem mem_sortIds (s : Finset String) (x : String) :
    x ∈ sortIds s ↔ x ∈ s :=
  Finset.mem_sort idLE

theorem filterMap_id_map_sublist (l : List String)
    (f : String → Option ChangeRecord)
    (hf : ∀ x c, f x = some c → c.id = x) :
    (((l.filterMap f).map ChangeRecord.id)).Sublist l := by
  induction l with
  | nil => simp
  | cons a rest ih =>
      rcases hfa : f a with _ | c
      · rw [List.filterMap_cons_none hfa]
        exact ih.cons a
      · rw [List.filterMap_cons_some hfa, List.map_cons, hf a c hfa]
        exact ih.cons₂ a

theorem changeAt_id (old new : FileIndex) (tid : String) (c : ChangeRecord)
    (h : changeAt old new tid = some c) : c.id = tid := by
  rw [changeAt] at h
  split at h
  · cases h
    rfl
  · cases h

theorem changesOf_ids_pairwise (old new : FileIndex) :
    List.Pairwise keyLE ((changesOf old new).map ChangeRecord.id) :=
  (sortIds_pairwise_keyLE (common_ids old new)).sublist
    (filterMap_id_map_sublist _ _ (changeAt_id old new))

theorem addedListing_ids (old new : FileIndex) :
    (addedListing old new).map Prod.fst = sortIds (added_ids old new) := by
  rw [addedListing, List.map_map]
  exact List.map_id _

theorem removedListing_ids (old new : FileIndex) :
    (removedListing old new).map Prod.fst = sortIds (removed_ids old new) := by
  rw [removedListing, List.map_map]
  exact List.map_id _

/-! ## Symmetry lemmas -/

theorem common_ids_comm (old new : FileIndex) :
    common_ids new old = common_ids old new :=
  Finset.inter_comm _ _

theorem changeAt_swap (old new : FileIndex) (tid : String) :
    changeAt new old tid =
      (changeAt old new tid).map
        (fun c => { id := c.id, old := c.new, new := c.old }) := by
  by_cases h : (List.lookup tid old.id_to_text).getD "" =
      (List.lookup tid new.id_to_text).getD ""
  · have e1 : changeAt old new tid = none := by
      rw [changeAt]
      simp [h]
    have e2 : changeAt new old tid = none := by
      rw [changeAt]
      simp [h.symm]
    rw [e1, e2]
    rfl
  · have h2 : ¬ (List.lookup tid new.id_to_text).getD "" =
        (List.lookup tid old.id_to_text).getD "" := fun e => h e.symm
    have e1 : changeAt old new tid = some
        { id := tid, old := (List.lookup tid old.id_to_text).getD "",
          new := (List.lookup tid new.id_to_text).getD "" } := by
      rw [changeAt]
      simp [h]
    have e2 : changeAt new old tid = some
        { id := tid, old := (List.lookup tid new.id_to_text).getD "",
          new := (List.lookup tid old.id_to_text).getD "" } := by
      rw [changeAt]
      simp [h2]
    rw [e1, e2]
    rfl

theorem changesOf_swap (old new : FileIndex) :
    changesOf new old =
      (changesOf old new).map
        (fun c => { id := c.id, old := c.new, new := c.old }) := by
  rw [changesOf, changesOf, common_ids_comm, List.map_filterMap]
  have hfun : changeAt new old = fun tid =>
      (changeAt old new tid).map
        (fun c => { id := c.id, old := c.new, new := c.old }) :=
    funext (changeAt_swap old new)
  rw [hfun]

/-! ## Diff lemmas -/

theorem charDiff_nil_left (ys : List Char) : charDiff [] ys = ys.map .ins := by
  rw [charDiff]

theorem charDiff_nil_right (x : Char) (xs : List Char) :
    charDiff (x :: xs) [] = (x :: xs).map .drop := by
  rw [charDiff]
  simp

theorem charDiff_cons_cons (x y : Char) (xs ys : List Char) :
    charDiff (x :: xs) (y :: ys) =
      if x = y then .keep x :: charDiff xs ys
      else if diffCost (charDiff xs (y :: ys)) ≤
          diffCost (charDiff (x :: xs) ys)
        then .drop x :: charDiff xs (y :: ys)
        else .ins y :: charDiff (x :: xs) ys := by
  rw [charDiff]

theorem restoreOld_map_ins (l : List Char) : restoreOld (l.map .ins) = [] := by
  induction l with
  | nil => rfl
  | cons c rest ih => simp [restoreOld, ih]

theorem restoreOld_map_drop (l : List Char) :
    restoreOld (l.map .drop) = l := by
  induction l with
  | nil => rfl
  | cons c rest ih => simp [restoreOld, ih]

theorem restoreNew_map_ins (l : List Char) : restoreNew (l.map .ins) = l := by
  induction l with
  | nil => rfl
  | cons c rest ih => simp [restoreNew, ih]

theorem restoreNew_map_drop (l : List Char) :
    restoreNew (l.map .drop) = [] := by
  induction l with
  | nil => rfl
  | cons c rest ih => simp [restoreNew, ih]

theorem restoreOld_charDiff (a b : List Char) :
    restoreOld (charDiff a b) = a := by
  induction a, b using charDiff.induct with
  | case1 ys => rw [charDiff_nil_left, restoreOld_map_ins]
  | case2 xs =>
      cases xs with
      | nil => rw [charDiff_nil_left]; rfl
      | cons x rest => rw [charDiff_nil_right, restoreOld_map_drop]
  | case3 xs c ys ih =>
      rw [charDiff_cons_cons, if_pos rfl]
      simp [restoreOld, ih]
  | case4 x xs y ys hne vd vi hcost ih1 ih2 =>
      rw [charDiff_cons_cons, if_neg hne, if_pos hcost]
      simp [restoreOld, ih1]
  | case5 x xs y ys hne vd vi hcost ih1 ih2 =>
      rw [charDiff_cons_cons, if_neg hne, if_neg hcost]
      simp [restoreOld, ih2]

theorem restoreNew_charDiff (a b : List Char) :
    restoreNew (charDiff a b) = b := by
  induction a, b using charDiff.induct with
  | case1 ys => rw [charDiff_nil_left, restoreNew_map_ins]
  | case2 xs =>
      cases xs with
      | nil => rw [charDiff_nil_left]; rfl
      | cons x rest => rw [charDiff_nil_right, restoreNew_map_drop]
  | case3 xs c ys ih =>
      rw [charDiff_cons_cons, if_pos rfl]
      simp [restoreNew, ih]
  | case4 x xs y ys hne vd vi hcost ih1 ih2 =>
      rw [charDiff_cons_cons, if_neg hne, if_pos hcost]
      simp [restoreNew, ih1]
  | case5 x xs y ys hne vd vi hcost ih1 ih2 =>
      rw [charDiff_cons_cons, if_neg hne, if_neg hcost]
      simp [restoreNew, ih2]

theorem charDiff_self (l : List Char) :
    charDiff l l = l.map DiffEntry.keep := by
  induction l with
  | nil => rw [charDiff_nil_left]; rfl
  | cons c rest ih => rw [charDiff_cons_cons, if_pos rfl, ih]; rfl

/-! ## String lemmas -/

theorem strDataAppend (a b : String) : (a ++ b).data = a.data ++ b.data := by
  cases a with
  | mk d1 =>
      cases b with
      | mk d2 => rfl

theorem strAppend_assoc (a b c : String) : (a ++ b) ++ c = a ++ (b ++ c) :=
  stringDataEq (by rw [strDataAppend, strDataAppend, strDataAppend,
    strDataAppend, List.append_assoc])

theorem strJoin_foldl_data (ls : List String) (acc : String) :
    (ls.foldl (· ++ ·) acc).data =
      acc.data ++ (ls.map String.data).flatten := by
  induction ls generalizing acc with
  | nil => simp
  | cons s rest ih =>
      rw [List.foldl_cons, ih, List.map_cons, List.flatten_cons,
        strDataAppend, List.append_assoc]

theorem strJoin_data (ls : List String) :
    (String.join ls).data = (ls.map String.data).flatten := by
  rw [String.join]
  rw [show (List.foldl (fun r s => r ++ s) "" ls) =
    ls.foldl (· ++ ·) "" from rfl]
  rw [strJoin_foldl_data]
  rfl

theorem flatten_map_singleton_char (l : List Char) :
    (l.map (fun c => [c])).flatten = l := by
  induction l with
  | nil => rfl
  | cons c rest ih => simp [ih]

/-! ## Substring lemmas -/

theorem startsWithSeq_refl_append (p suf : List Char) :
    startsWithSeq (p ++ suf) p = true := by
  induction p with
  | nil =>
      rw [List.nil_append]
      cases suf <;> rfl
  | cons a rest ih => simp [startsWithSeq, ih]

theorem containsSeq_append_of_startsWith (pre l pat : List Char)
    (h : startsWithSeq l pat = true) : containsSeq (pre ++ l) pat = true := by
  induction pre with
  | nil =>
      cases l with
      | nil =>
          cases pat with
          | nil => rfl
          | cons c cs => simp [startsWithSeq] at h
      | cons x xs => simp [containsSeq, h]
  | cons a rest ih => simp [containsSeq, ih]

theorem namesFile_mid (pre path suf : String) :
    namesFile ((pre ++ path) ++ suf) path = true := by
  rw [namesFile, strDataAppend, strDataAppend, List.append_assoc]
  exact containsSeq_append_of_startsWith _ _ _
    (startsWithSeq_refl_append _ _)

theorem namesFile_end (pre path : String) :
    namesFile (pre ++ path) path = true := by
  have h := namesFile_mid pre path ""
  rwa [show (pre ++ path) ++ "" = pre ++ path from
    stringDataEq (by rw [strDataAppend]; simp)] at h

/-! ## Auxiliary facts for the claim theorems -/

theorem missingList_eq_nil_iff (ids1 ids2 : Finset String) :
    missingList ids1 ids2 = [] ↔ ids1 \ ids2 = ∅ := by
  rw [missingList, sortIds]
  constructor
  · intro h
    rw [Finset.eq_empty_iff_forall_not_mem]
    intro x hx
    have : x ∈ Finset.sort idLE (ids1 \ ids2) := (Finset.mem_sort idLE).mpr hx
    rw [h] at this
    cases this
  · intro h
    rw [List.eq_nil_iff_forall_not_mem]
    intro x hx
    have : x ∈ ids1 \ ids2 := (Finset.mem_sort idLE).mp hx
    rw [h] at this
    cases this

/-- A run of each script is decided by what the parser finds: anything but a
well-formed document is fatal. -/
def isFatalInput : XmlInput → Bool
  | .ok _ => false
  | .parseError _ => true
  | .notFound => true

/-! ## Claim theorems -/

/-- Claim C1: for every two input FileIndexes the derived sets satisfy
`common = old.ids ∩ new.ids`, `added = new.ids − old.ids`,
`removed = old.ids − new.ids`; their union equals `old.ids ∪ new.ids` and the
three sets are pairwise disjoint. -/
theorem claim_C1 (old new : FileIndex) :
    common_ids old new = old.all_ids ∩ new.all_ids ∧
    added_ids old new = new.all_ids \ old.all_ids ∧
    removed_ids old new = old.all_ids \ new.all_ids ∧
    common_ids old new ∪ added_ids old new ∪ removed_ids old new =
      old.all_ids ∪ new.all_ids ∧
    Disjoint (common_ids old new) (added_ids old new) ∧
    Disjoint (common_ids old new) (removed_ids old new) ∧
    Disjoint (added_ids old new) (removed_ids old new) := by
  refine ⟨rfl, rfl, rfl, ?_, ?_, ?_, ?_⟩
  · ext x
    simp only [common_ids, added_ids, removed_ids, Finset.mem_union,
      Finset.mem_inter, Finset.mem_sdiff]
    tauto
  · rw [Finset.disjoint_left]
    intro a ha hb
    rw [common_ids, Finset.mem_inter] at ha
    rw [added_ids, Finset.mem_sdiff] at hb
    exact hb.2 ha.1
  · rw [Finset.disjoint_left]
    intro a ha hb
    rw [common_ids, Finset.mem_inter] at ha
    rw [removed_ids, Finset.mem_sdiff] at hb
    exact hb.2 ha.2
  · rw [Finset.disjoint_left]
    intro a ha hb
    rw [added_ids, Finset.mem_sdiff] at ha
    rw [removed_ids, Finset.mem_sdiff] at hb
    exact ha.2 hb.1

/-- Claim C6: swapping the two FileIndexes exchanges added and removed,
leaves common unchanged, and swaps the (old, new) pair of every ChangeRecord
while keeping the same sequence of changed ids. -/
theorem claim_C6 (old new : FileIndex) :
    common_ids new old = common_ids old new ∧
    added_ids new old = removed_ids old new ∧
    removed_ids new old = added_ids old new ∧
    changesOf new old =
      (changesOf old new).map
        (fun c => { id := c.id, old := c.new, new := c.old }) ∧
    (changesOf new old).map ChangeRecord.id =
      (changesOf old new).map ChangeRecord.id := by
  refine ⟨common_ids_comm old new, rfl, rfl, changesOf_swap old new, ?_⟩
  rw [changesOf_swap old new, List.map_map]
  rfl

/-- Claim C5: when a file holds several `<t>` elements with one non-empty id,
the extracted index maps that id to the trimmed text of the last such
element in document order, and the id is in the all-ids set. -/
theorem claim_C5 (l : List XmlElem) (i : String) (t : XmlElem)
    (h : lastGood l i = some t) :
    List.lookup i (extract_strings l).id_to_text =
      some (pyStrip (t.text.getD "")) ∧
    i ∈ (extract_strings l).all_ids := by
  constructor
  · rw [lookup_extract_strings, h]
  · rw [mem_extract_strings_allIds]
    apply (lastGood_isSome_iff l i).mp
    rw [h]
    rfl

/-- Witness for C5: a file with two `<t id="5">` elements; the mapping holds
the trimmed text of the second one. -/
theorem claim_C5_witness :
    lastGood [{ id := some "5", text := some " first " },
        { id := some "5", text := some " second " }] "5" =
      some { id := some "5", text := some " second " } ∧
    (List.lookup "5"
        (extract_strings [{ id := some "5", text := some " first " },
          { id := some "5", text := some " second " }]).id_to_text =
      some (pyStrip (((some " second " : Option String)).getD "")) ∧
    "5" ∈ (extract_strings [{ id := some "5", text := some " first " },
        { id := some "5", text := some " second " }]).all_ids) :=
  ⟨by decide,
   claim_C5 [{ id := some "5", text := some " first " },
       { id := some "5", text := some " second " }] "5"
     { id := some "5", text := some " second " } (by decide)⟩

/-- Claim C9: the dictionary keys of an extracted FileIndex are exactly its
all-ids set; hence every common id has an entry in both mappings and the
empty-string default of `old_strings.get(t_id, "")` is never used. -/
theorem claim_C9 (A B : List XmlElem) (i : String) :
    keysFinset (extract_strings A).id_to_text = (extract_strings A).all_ids ∧
    ((List.lookup i (extract_strings A).id_to_text).isSome = true ↔
      i ∈ (extract_strings A).all_ids) ∧
    (i ∈ common_ids (extract_strings A) (extract_strings B) →
      (List.lookup i (extract_strings A).id_to_text).isSome = true ∧
      (List.lookup i (extract_strings B).id_to_text).isSome = true) := by
  have key : ∀ (l : List XmlElem) (k : String),
      (List.lookup k (extract_strings l).id_to_text).isSome = true ↔
        k ∈ (extract_strings l).all_ids := by
    intro l k
    rw [lookup_isSome_iff_mem_keys, ← List.mem_toFinset,
      show ((extract_strings l).id_to_text.map Prod.fst).toFinset =
        keysFinset (extract_strings l).id_to_text from rfl,
      extract_keys_eq_allIds]
  refine ⟨extract_keys_eq_allIds A, key A i, fun hc => ?_⟩
  rw [common_ids, Finset.mem_inter] at hc
  exact ⟨(key A i).mpr hc.1, (key B i).mpr hc.2⟩

/-- Witness for C9: a shared id "1" has an entry in both extracted
dictionaries. -/
theorem claim_C9_witness :
    "1" ∈ common_ids (extract_strings [{ id := some "1", text := some "a" }])
        (extract_strings [{ id := some "1", text := some "b" }]) ∧
    ((List.lookup "1"
        (extract_strings
          [{ id := some "1", text := some "a" }]).id_to_text).isSome = true ∧
      (List.lookup "1"
        (extract_strings
          [{ id := some "1", text := some "b" }]).id_to_text).isSome = true) :=
  ⟨by decide,
   (claim_C9 [{ id := some "1", text := some "a" }]
     [{ id := some "1", text := some "b" }] "1").2.2 (by decide)⟩

/-- Claim C10: diffing a string against itself yields only unchanged entries
and `colored_diff(s, s)` returns `s` with no added/removed markers. -/
theorem claim_C10 (s : String) :
    colored_diff s s = s ∧
    charDiff s.data s.data = s.data.map DiffEntry.keep := by
  have h2 : charDiff s.data s.data = s.data.map DiffEntry.keep :=
    charDiff_self _
  refine ⟨?_, h2⟩
  apply stringDataEq
  rw [colored_diff, strJoin_data, h2, List.map_map, List.map_map]
  rw [show ((String.data ∘ renderEntry) ∘ DiffEntry.keep) = fun c => [c] from
    funext (fun c => rfl)]
  exact flatten_map_singleton_char s.data

/-- Claim C8: the visual report prints the two texts side by side exactly
when both are shorter than 50 characters, and otherwise prints the rendered
character-level edit script, whose unchanged-and-deleted entries spell the
old text and whose unchanged-and-inserted entries spell the new text. -/
theorem claim_C8 (t1 t2 : String) :
    ((∃ a b, renderChange t1 t2 = .sideBySide a b) ↔
      (t1.length < 50 ∧ t2.length < 50)) ∧
    (renderChange t1 t2 = .diffScript (colored_diff t1 t2) ↔
      ¬ (t1.length < 50 ∧ t2.length < 50)) ∧
    colored_diff t1 t2 =
      String.join ((charDiff t1.data t2.data).map renderEntry) ∧
    restoreOld (charDiff t1.data t2.data) = t1.data ∧
    restoreNew (charDiff t1.data t2.data) = t2.data := by
  refine ⟨?_, ?_, rfl, restoreOld_charDiff _ _, restoreNew_charDiff _ _⟩
  · rw [renderChange]
    by_cases h : t1.length < 50 ∧ t2.length < 50
    · rw [if_pos h]
      exact iff_of_true ⟨t1, t2, rfl⟩ h
    · rw [if_neg h]
      constructor
      · rintro ⟨a, b, hab⟩
        exact ChangeRendering.noConfusion hab
      · intro hcl
        exact absurd hcl h
  · rw [renderChange]
    by_cases h : t1.length < 50 ∧ t2.length < 50
    · rw [if_pos h]
      exact iff_of_false (fun he => ChangeRendering.noConfusion he)
        (fun hn => hn h)
    · rw [if_neg h]
      exact iff_of_true rfl h

/-- Claim C4: every id-keyed listing — changed, added, removed, missing — is
ordered by ascending `int` sort key (`idKey`, the integer value of a numeric
id string), and the set `{"10", "2", "1"}` is listed as 1, 2, 10. -/
theorem claim_C4 (old new : FileIndex) (ids1 ids2 : Finset String) :
    List.Pairwise keyLE ((changesOf old new).map ChangeRecord.id) ∧
    List.Pairwise keyLE ((addedListing old new).map Prod.fst) ∧
    List.Pairwise keyLE ((removedListing old new).map Prod.fst) ∧
    List.Pairwise keyLE (missingList ids1 ids2) ∧
    sortIds ({"10", "2", "1"} : Finset String) = ["1", "2", "10"] := by
  refine ⟨changesOf_ids_pairwise old new, ?_, ?_, ?_, ?_⟩
  · rw [addedListing_ids]
    exact sortIds_pairwise_keyLE _
  · rw [removedListing_ids]
    exact sortIds_pairwise_keyLE _
  · exact sortIds_pairwise_keyLE _
  · exact sortIds_eq_of _ ["10", "2", "1"] _ rfl (by decide) (by decide)

/-- Claim C7: the id-only comparator reports exactly the ids of the first
file absent from the second, in ascending key order, prints the success
message exactly when that set is empty, and its outcome is unchanged under
any rewriting of the text content of either file. -/
theorem claim_C7 (f1 f2 : List XmlElem) :
    (∀ x, x ∈ missingList (extract_ids f1) (extract_ids f2) ↔
      (x ∈ extract_ids f1 ∧ x ∉ extract_ids f2)) ∧
    List.Pairwise keyLE (missingList (extract_ids f1) (extract_ids f2)) ∧
    (idsReportOf (extract_ids f1) (extract_ids f2) = .allPresent ↔
      extract_ids f1 \ extract_ids f2 = ∅) ∧
    (idsReportOf (extract_ids f1) (extract_ids f2) =
        .missingReport (missingList (extract_ids f1) (extract_ids f2)) ↔
      missingList (extract_ids f1) (extract_ids f2) ≠ []) ∧
    (∀ g, idsReportOf (extract_ids (retext g f1)) (extract_ids (retext g f2)) =
      idsReportOf (extract_ids f1) (extract_ids f2)) := by
  refine ⟨?_, sortIds_pairwise_keyLE _, ?_, ?_, ?_⟩
  · intro x
    rw [missingList, sortIds, Finset.mem_sort, Finset.mem_sdiff]
  · rw [idsReportOf]
    by_cases h : missingList (extract_ids f1) (extract_ids f2) = []
    · rw [if_pos h]
      exact iff_of_true rfl ((missingList_eq_nil_iff _ _).mp h)
    · rw [if_neg h]
      exact iff_of_false (fun he => IdsReport.noConfusion he)
        (fun he => h ((missingList_eq_nil_iff _ _).mpr he))
  · rw [idsReportOf]
    by_cases h : missingList (extract_ids f1) (extract_ids f2) = []
    · rw [if_pos h]
      exact iff_of_false (fun he => IdsReport.noConfusion he)
        (fun hne => hne h)
    · rw [if_neg h]
      exact iff_of_true rfl h
  · intro g
    rw [extract_ids_retext, extract_ids_retext]

/-- Counterexample to C2 as stated: the colored comparator variant does NOT
trim at extraction, so the id "1", whose two stored texts differ only in
leading/trailing whitespace, IS reported as changed there. -/
theorem claim_C2_counterexample :
    pyStrip "hello" = pyStrip " hello " ∧
    coloredChanges [{ id := some "1", text := some "hello" }]
        [{ id := some "1", text := some " hello " }] =
      [("1", "hello", " hello ")] := by
  constructor
  · decide
  · have hs : sortIds
        (keysFinset
            (colored_strings [{ id := some "1", text := some "hello" }]) ∩
          keysFinset
            (colored_strings [{ id := some "1", text := some " hello " }])) =
        ["1"] :=
      sortIds_eq_of _ ["1"] ["1"] rfl (List.Perm.refl _) (by decide)
    simp only [coloredChanges]
    rw [hs]
    decide

/-- Claim C2 (amended): in `compare_same_xml_files.py` — where text IS
stripped at extraction — an id whose stored texts differ only in
leading/trailing whitespace is never reported as changed; the colored
variant stores text unstripped and does report such ids (see the
counterexample). -/
theorem claim_C2_amended (A B : List XmlElem) (i : String) (ta tb : XmlElem)
    (ha : lastGood A i = some ta) (hb : lastGood B i = some tb)
    (heq : pyStrip (ta.text.getD "") = pyStrip (tb.text.getD "")) :
    ∀ c ∈ changesOf (extract_strings A) (extract_strings B), c.id ≠ i := by
  intro c hc hci
  rw [changesOf] at hc
  rcases List.mem_filterMap.mp hc with ⟨tid, htid, hch⟩
  have hid : tid = i := by
    rw [← changeAt_id _ _ _ _ hch, hci]
  subst hid
  have hA : List.lookup tid (extract_strings A).id_to_text =
      some (pyStrip (ta.text.getD "")) := by
    rw [lookup_extract_strings, ha]
  have hB : List.lookup tid (extract_strings B).id_to_text =
      some (pyStrip (tb.text.getD "")) := by
    rw [lookup_extract_strings, hb]
  rw [changeAt, hA, hB] at hch
  simp [heq] at hch

/-- Witness for the amended C2: texts `" x"` and `"x "` agree after
stripping, and the main comparator reports no change for their id. -/
theorem claim_C2_amended_witness :
    lastGood [{ id := some "7", text := some " x" }] "7" =
      some { id := some "7", text := some " x" } ∧
    lastGood [{ id := some "7", text := some "x " }] "7" =
      some { id := some "7", text := some "x " } ∧
    pyStrip (((some " x" : Option String)).getD "") =
      pyStrip (((some "x " : Option String)).getD "") ∧
    ∀ c ∈ changesOf (extract_strings [{ id := some "7", text := some " x" }])
        (extract_strings [{ id := some "7", text := some "x " }]),
      c.id ≠ "7" :=
  ⟨by decide, by decide, by decide,
   claim_C2_amended [{ id := some "7", text := some " x" }]
     [{ id := some "7", text := some "x " }] "7"
     { id := some "7", text := some " x" }
     { id := some "7", text := some "x " }
     (by decide) (by decide) (by decide)⟩

/-- Counterexample to C3 as stated: the colored script wraps `ET.parse` in no
`try/except`, so a malformed first file aborts the run with the raw parser
detail, which does not name the failing file. -/
theorem claim_C3_counterexample :
    mainColored "old.xml" "new.xml"
        (.parseError "not well-formed (invalid token): line 1, column 0")
        (.ok []) =
      .error
        { excText := "not well-formed (invalid token): line 1, column 0" } ∧
    namesFile "not well-formed (invalid token): line 1, column 0" "old.xml" =
      false :=
  ⟨rfl, by decide⟩

/-- Claim C3 (amended): `compare_same_xml_files.py` and `compare_xml_ids.py`
catch both fatal conditions at the extraction boundary and abort — before any
comparison output — with exit status 1 and a message naming the failing file;
the colored script also aborts before any comparison output (the uncaught
exception carries non-zero exit status), and its missing-file diagnostic
names the file, but its malformed-XML diagnostic does not. -/
theorem claim_C3_amended (p1 p2 : String) (i1 i2 : XmlInput)
    (f1 : List XmlElem) :
    (isFatalInput i1 = true → ∃ f, mainCompare p1 p2 i1 i2 = .error f ∧
      f.exit_code = 1 ∧ namesFile f.message p1 = true) ∧
    (isFatalInput i2 = true → ∃ f,
      mainCompare p1 p2 (.ok f1) i2 = .error f ∧
      f.exit_code = 1 ∧ namesFile f.message p2 = true) ∧
    (isFatalInput i1 = true → ∃ f, mainIds p1 p2 i1 i2 = .error f ∧
      f.exit_code = 1 ∧ namesFile f.message p1 = true) ∧
    (isFatalInput i2 = true → ∃ f, mainIds p1 p2 (.ok f1) i2 = .error f ∧
      f.exit_code = 1 ∧ namesFile f.message p2 = true) ∧
    (isFatalInput i1 = true → ∃ u, mainColored p1 p2 i1 i2 = .error u) ∧
    (isFatalInput i2 = true → ∃ u,
      mainColored p1 p2 (.ok f1) i2 = .error u) ∧
    (i1 = .notFound → ∃ u, mainColored p1 p2 i1 i2 = .error u ∧
      namesFile u.excText p1 = true) := by
  have hparse : ∀ e : String,
      namesFile ("XML parsing error in " ++ p1 ++ ": " ++ e) p1 = true := by
    intro e
    have h := namesFile_mid "XML parsing error in " p1 (": " ++ e)
    rwa [← strAppend_assoc] at h
  have hparse2 : ∀ e : String,
      namesFile ("XML parsing error in " ++ p2 ++ ": " ++ e) p2 = true := by
    intro e
    have h := namesFile_mid "XML parsing error in " p2 (": " ++ e)
    rwa [← strAppend_assoc] at h
  refine ⟨?_, ?_, ?_, ?_, ?_, ?_, ?_⟩
  · intro h
    cases i1 with
    | ok l => simp [isFatalInput] at h
    | parseError e => exact ⟨_, rfl, rfl, hparse e⟩
    | notFound => exact ⟨_, rfl, rfl, namesFile_end "File not found: " p1⟩
  · intro h
    cases i2 with
    | ok l => simp [isFatalInput] at h
    | parseError e => exact ⟨_, rfl, rfl, hparse2 e⟩
    | notFound => exact ⟨_, rfl, rfl, namesFile_end "File not found: " p2⟩
  · intro h
    cases i1 with
    | ok l => simp [isFatalInput] at h
    | parseError e => exact ⟨_, rfl, rfl, hparse e⟩
    | notFound => exact ⟨_, rfl, rfl, namesFile_end "File not found: " p1⟩
  · intro h
    cases i2 with
    | ok l => simp [isFatalInput] at h
    | parseError e => exact ⟨_, rfl, rfl, hparse2 e⟩
    | notFound => exact ⟨_, rfl, rfl, namesFile_end "File not found: " p2⟩
  · intro h
    cases i1 with
    | ok l => simp [isFatalInput] at h
    | parseError e => exact ⟨_, rfl⟩
    | notFound => exact ⟨_, rfl⟩
  · intro h
    cases i2 with
    | ok l => simp [isFatalInput] at h
    | parseError e => exact ⟨_, rfl⟩
    | notFound => exact ⟨_, rfl⟩
  · intro h
    subst h
    exact ⟨_, rfl,
      namesFile_mid ("[Errno 2] No such file or directory: " ++ "'") p1 "'"⟩

/-- Witness for the amended C3: a malformed first file makes the main
comparator abort with exit status 1 and a message naming `a.xml`, and makes
the colored script abort as well. -/
theorem claim_C3_amended_witness :
    isFatalInput (XmlInput.parseError "syntax error: line 1, column 0") =
      true ∧
    (∃ f, mainCompare "a.xml" "b.xml"
        (.parseError "syntax error: line 1, column 0") (.ok []) = .error f ∧
      f.exit_code = 1 ∧ namesFile f.message "a.xml" = true) ∧
    (∃ u, mainColored "a.xml" "b.xml"
        (.parseError "syntax error: line 1, column 0") (.ok []) = .error u) :=
  ⟨by decide,
   (claim_C3_amended "a.xml" "b.xml"
     (.parseError "syntax error: line 1, column 0") (.ok []) []).1 (by decide),
   (claim_C3_amended "a.xml" "b.xml"
     (.parseError "syntax error: line 1, column 0") (.ok [])
     []).2.2.2.2.1 (by decide)⟩
